import Mathlib

/-!
Shallow embedding of the core of `lj` (essentialkaos/lj), a JSON log viewer.

The embedding covers, faithfully to the Go sources:
  * `cli/filter.go`: the filter mini-language (`parseFilter`, `parseFilters`),
    the condition table, and predicate evaluation (`Filters.IsMatch`,
    including the `Highlights.Apply` helper from the second generation of the
    file);
  * `cli/cli.go`: the didRender contract of `renderLine` and the greedy
    field-packing algorithm of `renderFields` together with `Field.Size`.

Modelling conventions, stated once here:
  * Go strings are modelled as Lean `String` (sequences of characters).
    Go's `len` is a byte count; it coincides with the character count for
    ASCII data.  The single place where the byte/character difference could
    matter (`value[0]` in `parseFilter`) is observationally identical at the
    character level, because the condition markers are one-byte ASCII
    characters and no UTF-8 continuation byte equals any of them.
  * Go `float64` values are modelled as rationals (`ℚ`).  The model of
    `strconv.ParseFloat` covers Go's decimal floating-point literals
    (sign, digits, one dot, `e`/`E` exponent, underscore separators) with
    exact rational semantics; hexadecimal float literals, `inf`/`nan`
    spellings and overflow-to-infinity are outside the rational model.
  * `gjson.Result` is abstracted to the observations the program uses:
    a JSON value with its `String()` and `Float()` representations.
  * A Go `any` value is modelled by the sum `GoValue`; the runtime type
    assertions `.(string)` / `.(float64)` become partial projections, and a
    failed assertion (a panic) is modelled by `Option.none` propagating out
    of `Filters.IsMatch` and `renderLine`.
-/

namespace LJ

/-- Condition code `COND_POSITIVE` (Go `uint8` constant 0). -/
def COND_POSITIVE : ℕ := 0

/-- Condition code `COND_NEGATIVE` (Go `uint8` constant 1). -/
def COND_NEGATIVE : ℕ := 1

/-- Condition code `COND_CONTAINS` (Go `uint8` constant 2). -/
def COND_CONTAINS : ℕ := 2

/-- Condition code `COND_LESS` (Go `uint8` constant 3). -/
def COND_LESS : ℕ := 3

/-- Condition code `COND_GREATER` (Go `uint8` constant 4). -/
def COND_GREATER : ℕ := 4

/-- Model of a Go `any` value as stored in `Filter.Value`: the program only
ever stores a `string` or a `float64` there. -/
inductive GoValue where
  | str (s : String)
  | num (q : ℚ)
deriving DecidableEq

/-- Type assertion `.(string)` on a `GoValue`; `none` models a panic. -/
def GoValue.asString : GoValue → Option String
  | .str s => some s
  | .num _ => none

/-- Type assertion `.(float64)` on a `GoValue`; `none` models a panic. -/
def GoValue.asFloat : GoValue → Option ℚ
  | .num q => some q
  | .str _ => none

/-- Go struct `Filter{Key string; Value any; Cond uint8}`: an input filter. -/
structure Filter where
  Key : String
  Value : GoValue
  Cond : ℕ
deriving DecidableEq

/-- Go type `Filters`, a slice of filters. -/
abbrev Filters := List Filter

/-- The `conditions` map of `filter.go`: a Go map lookup `conditions[c]`
returns the zero value `0 = COND_POSITIVE` when the key is absent. -/
def conditions (c : Char) : ℕ :=
  if c = '!' then COND_NEGATIVE
  else if c = '~' then COND_CONTAINS
  else if c = '<' then COND_LESS
  else if c = '>' then COND_GREATER
  else 0

/-- Model of `strings.Cut(f, ":")` on the character list: split at the first
colon, returning (before, after, found). -/
def cutColonL : List Char → (List Char × List Char × Bool)
  | [] => ([], [], false)
  | c :: rest =>
    if c = ':' then ([], rest, true)
    else
      let r := cutColonL rest
      (c :: r.1, r.2.1, r.2.2)

/-- Model of `strings.Cut(f, ":")` on strings. -/
def cutColon (s : String) : String × String × Bool :=
  let r := cutColonL s.toList
  (⟨r.1⟩, ⟨r.2.1⟩, r.2.2)

/-- Decimal digit test, as in Go's float scanner. -/
def isDigit (c : Char) : Bool := '0' ≤ c && c ≤ '9'

/-- Numeric value of a list of decimal digits. -/
def digitsToNat (l : List Char) : ℕ :=
  l.foldl (fun a c => 10 * a + (c.toNat - 48)) 0

/-- One step of Go's `underscoreOK` scan.  State characters: `s` start,
`d` after a digit, `u` after an underscore, `n` after any other character;
`none` means the scan has already failed. -/
def underscoreStep (st : Option Char) (c : Char) : Option Char :=
  match st with
  | none => none
  | some saw =>
    if isDigit c then some 'd'
    else if c = '_' then (if saw = 'd' then some 'u' else none)
    else if saw = 'u' then none
    else some 'n'

/-- Model of Go's `strconv` `underscoreOK` for decimal literals: every
underscore must be sandwiched between digits (an optional leading sign is
skipped first, as in Go). -/
def underscoreOKGo (l : List Char) : Bool :=
  let body := match l with
    | c :: r => if c = '+' ∨ c = '-' then r else l
    | [] => l
  match body.foldl underscoreStep (some 's') with
  | none => false
  | some saw => saw != 'u'

/-- Exact rational value of a decimal literal with mantissa digits `m`,
`k` digits after the dot, decimal exponent `e` and sign `neg`, that is
`± m * 10 ^ (e - k)`, built from integer arithmetic. -/
def decValue (neg : Bool) (m : ℕ) (k : ℕ) (e : ℤ) : ℚ :=
  let sm : ℤ := if neg then -(m : ℤ) else (m : ℤ)
  if (k : ℤ) ≤ e then mkRat (sm * (10 : ℤ) ^ (e - (k : ℤ)).toNat) 1
  else mkRat sm ((10 : ℕ) ^ ((k : ℤ) - e).toNat)

/-- Decimal part of Go's float syntax on an underscore-free character list:
optional sign, digits with at most one dot (at least one digit), optional
`e`/`E` exponent with optional sign and at least one digit.  Exact rational
semantics. -/
def readFloatDec (l : List Char) : Option ℚ :=
  let sl : Bool × List Char := match l with
    | '+' :: r => (false, r)
    | '-' :: r => (true, r)
    | _ => (false, l)
  let neg := sl.1
  let l1 := sl.2
  let intPart := l1.takeWhile isDigit
  let l2 := l1.dropWhile isDigit
  let fl : List Char × List Char := match l2 with
    | '.' :: r => (r.takeWhile isDigit, r.dropWhile isDigit)
    | _ => ([], l2)
  let fracPart := fl.1
  let l3 := fl.2
  if intPart = [] ∧ fracPart = [] then none
  else
    let m := digitsToNat (intPart ++ fracPart)
    let k := fracPart.length
    match l3 with
    | [] => some (decValue neg m k 0)
    | e :: r =>
      if e = 'e' ∨ e = 'E' then
        let se : Bool × List Char := match r with
          | '+' :: rr => (false, rr)
          | '-' :: rr => (true, rr)
          | _ => (false, r)
        let ds := se.2.takeWhile isDigit
        let rest := se.2.dropWhile isDigit
        if ds = [] ∨ rest ≠ [] then none
        else
          let ex : ℤ := if se.1 then -(digitsToNat ds : ℤ) else (digitsToNat ds : ℤ)
          some (decValue neg m k ex)
      else none

/-- Model of `strconv.ParseFloat(s, ..)` restricted to decimal literals:
underscores are validated as in Go and then stripped; `none` models a parse
error (the caller `parseFilter` discards the error and keeps the zero
value).  Hexadecimal floats, `inf`/`nan` spellings and overflow are outside
this rational model. -/
def goParseFloat (s : String) : Option ℚ :=
  let l := s.toList
  if l.contains '_' ∧ underscoreOKGo l = false then none
  else readFloatDec (l.filter (fun c => c != '_'))

/-- Tail of a string (Go `value[1:]` for a string whose first character is a
one-byte condition marker). -/
def strTail (s : String) : String := ⟨s.toList.tail⟩

/-- Transliteration of `parseFilter`: parses raw filter string (see
`parseFilter` in `filter.go`). -/
def parseFilter (f : String) : Filter :=
  let c := cutColon f
  let key := c.1
  let value := c.2.1
  let ok := c.2.2
  if ok = false ∨ key = "" ∨ value = "" then
    ⟨"msg", GoValue.str f, COND_CONTAINS⟩
  else
    let cond := conditions (value.toList.headD ' ')
    let value1 := if cond ≠ COND_POSITIVE then strTail value else value
    if cond = COND_GREATER ∨ cond = COND_LESS then
      ⟨key, GoValue.num ((goParseFloat value1).getD 0), cond⟩
    else
      ⟨key, GoValue.str value1, cond⟩

/-- Transliteration of `parseFilters`: parses raw filters data; the Go loop appends
`parseFilter f` for each token in order, i.e. an element-wise map. -/
def parseFilters (filters : List String) : Filters :=
  filters.map parseFilter

/-- Abstraction of a `gjson.Result` value: a JSON scalar together with the
raw text kept for numbers and nested JSON (arrays/objects), which is what
`Result.String()` returns for those kinds. -/
inductive JVal where
  | jstring (s : String)
  | jnumber (raw : String) (num : ℚ)
  | jtrue
  | jfalse
  | jnull
  | jraw (s : String)
deriving DecidableEq

/-- Model of `gjson.Result.String()`: `Null` gives `""`, booleans their
spelling, numbers and nested JSON their raw text, strings themselves. -/
def JVal.toStr : JVal → String
  | .jstring s => s
  | .jnumber raw _ => raw
  | .jtrue => "true"
  | .jfalse => "false"
  | .jnull => ""
  | .jraw s => s

/-- Model of `gjson.Result.Float()`: numbers give their numeric value,
`True` gives 1, strings are parsed with `strconv.ParseFloat` ignoring the
error, everything else gives 0. -/
def JVal.toFloat : JVal → ℚ
  | .jnumber _ q => q
  | .jstring s => (goParseFloat s).getD 0
  | .jtrue => 1
  | .jfalse => 0
  | .jnull => 0
  | .jraw _ => 0

/-- Go `l1` starts with `l2` (model of the prefix test inside
`strings.Contains` / `strings.Replace`). -/
def goStartsWith : List Char → List Char → Bool
  | _, [] => true
  | [], _ :: _ => false
  | a :: l1, b :: l2 => a = b && goStartsWith l1 l2

/-- Substring scan used by `strings.Contains`: checks whether `sub` occurs
at some position of `l` (the empty `sub` occurs everywhere). -/
def listContainsSub : List Char → List Char → Bool
  | [], sub => sub.isEmpty
  | c :: rest, sub => goStartsWith (c :: rest) sub || listContainsSub rest sub

/-- Model of `strings.Contains(s, sub)`. -/
def goContains (s sub : String) : Bool :=
  listContainsSub s.toList sub.toList

/-- Replacement scan of `strings.ReplaceAll` for a nonempty pattern `old`,
left to right over the subject, skipping the matched occurrence after each
replacement.  `fuel` only drives structural recursion: each step consumes
at least one subject character, so any `fuel` at least the subject length
is exact (see `goReplaceAll`). -/
def replaceLoop (old new : List Char) : ℕ → List Char → List Char
  | _, [] => []
  | 0, s => s
  | fuel + 1, c :: rest =>
    if goStartsWith (c :: rest) old then
      new ++ replaceLoop old new fuel (List.drop (old.length - 1) rest)
    else
      c :: replaceLoop old new fuel rest

/-- Model of `strings.ReplaceAll(s, old, new)`: replaces all non-overlapping
occurrences left to right; for the empty pattern, Go inserts `new` before
every character and at the end. -/
def goReplaceAll (s old new : String) : String :=
  if old = "" then
    ⟨new.toList ++ s.toList.foldr (fun c acc => c :: (new.toList ++ acc)) []⟩
  else
    ⟨replaceLoop old.toList new.toList s.toList.length s.toList⟩

/-- Go type `Highlights`, a slice of highlights. -/
abbrev Highlights := List String

/-- Emphasis markup wrapped around a matched highlight term.  The source
calls `fmtc.Sprint` on the tagged text; tag rendering is an external output
transform (spec terms: the core produces tagged text), so `fmtc.Sprint` is
modelled as the identity on the tagged string. -/
def hlTag (s : String) : String := "\x7b#112\x7d\x7b_\x7d" ++ s ++ "\x7b!\x7d"

/-- Transliteration of `Highlights.Apply`: applies highlights to given message (see
`Highlights.Apply`): for each term in order, if it occurs in the current
message, replace all its occurrences by the wrapped term and record the
match. -/
def Highlights.Apply (h : Highlights) (msg : String) : String × Bool :=
  h.foldl
    (fun acc hh =>
      if goContains acc.1 hh then (goReplaceAll acc.1 hh (hlTag hh), true) else acc)
    (msg, false)

/-- Go map lookup `fields[key]` on the decoded field map, modelled as an
association list (keys of a JSON object are distinct in a `gjson` map, so
first-match lookup is adequate). -/
def lookupField (fields : List (String × JVal)) (key : String) : Option JVal :=
  match fields with
  | [] => none
  | kv :: rest => if kv.1 = key then some kv.2 else lookupField rest key

/-- One iteration of the `IsMatch` loop body for filter `ff` against the
field value `jf`: `some true` means the filter does not reject the record,
`some false` means it rejects it (`return false`), `none` models a panic of
a runtime type assertion.  A condition code outside the switch arms checks
nothing and lets the record pass. -/
def checkFilter (ff : Filter) (jf : JVal) : Option Bool :=
  if ff.Cond = COND_POSITIVE then
    match ff.Value.asString with
    | none => none
    | some s => some (decide (s = jf.toStr))
  else if ff.Cond = COND_NEGATIVE then
    match ff.Value.asString with
    | none => none
    | some s => some (decide (¬ s = jf.toStr))
  else if ff.Cond = COND_CONTAINS then
    match ff.Value.asString with
    | none => none
    | some s => some (goContains jf.toStr s)
  else if ff.Cond = COND_GREATER then
    match ff.Value.asFloat with
    | none => none
    | some v => some (decide (¬ v > jf.toFloat))
  else if ff.Cond = COND_LESS then
    match ff.Value.asFloat with
    | none => none
    | some v => some (decide (¬ v < jf.toFloat))
  else some true

/-- The `for` loop of `Filters.IsMatch`: absent key returns false at once,
a failing condition returns false, a passing one continues. -/
def matchLoop : List Filter → List (String × JVal) → Option Bool
  | [], _ => some true
  | ff :: rest, fields =>
    match lookupField fields ff.Key with
    | none => some false
    | some jf =>
      match checkFilter ff jf with
      | none => none
      | some false => some false
      | some true => matchLoop rest fields

/-- Transliteration of `Filters.IsMatch`: checks if json record fields match filters (see
of `Filters.IsMatch`, including the initial empty-list shortcut). -/
def Filters.IsMatch (f : Filters) (fields : List (String × JVal)) : Option Bool :=
  if f.isEmpty then some true else matchLoop f fields

/-- Result of `gjson.Parse` on one input line, abstracted to what
`renderLine` inspects: either the line is not a JSON object (the raw line
is kept for passthrough), or it is an object given by its ordered top-level
key/value pairs (`json.ForEach` iterates them in source order and
`json.Map()` is the corresponding key-to-value map). -/
inductive ParsedLine where
  | notObject (raw : String)
  | object (pairs : List (String × JVal))

/-- Message extraction of the `json.ForEach` callback in `renderLine`: keys
`msg` and `log` overwrite the message variable with `v.String()`, in
iteration order (the last occurrence wins); the message starts out empty. -/
def extractMsg (pairs : List (String × JVal)) : String :=
  pairs.foldl (fun msg kv => if kv.1 = "msg" ∨ kv.1 = "log" then kv.2.toStr else msg) ""

/-- didRender contract of `renderLine` in `cli.go`.  Non-objects return
false in strict mode and render the raw line as passthrough (returning
true) otherwise; an object with empty extracted message returns false; with
a non-empty filter list the record is dropped when `IsMatch` rejects it;
otherwise the record is rendered and the function returns true.  The
emitted text (header, highlight markup, field block) does not influence the
returned flag, so only the flag is modelled; `none` propagates a panic of
`IsMatch`. -/
def renderLine (strictMode : Bool) (filters : Filters) (_hl : Highlights)
    (line : ParsedLine) : Option Bool :=
  match line with
  | .notObject _ => if strictMode then some false else some true
  | .object pairs =>
    if extractMsg pairs = "" then some false
    else if filters.isEmpty = false then
      match Filters.IsMatch filters pairs with
      | none => none
      | some false => some false
      | some true => some true
    else some true

/-- Field type code `TYPE_UNKNOWN` (iota 0 in `cli.go`). -/
def TYPE_UNKNOWN : ℕ := 0

/-- Field type code `TYPE_STRING` (iota 1). -/
def TYPE_STRING : ℕ := 1

/-- Field type code `TYPE_NUMBER` (iota 2). -/
def TYPE_NUMBER : ℕ := 2

/-- Field type code `TYPE_BOOL` (iota 3). -/
def TYPE_BOOL : ℕ := 3

/-- Field type code `TYPE_NIL` (iota 4). -/
def TYPE_NIL : ℕ := 4

/-- Go struct `Field{Name, Value string; Type uint8}`, a JSON field (note:
the Go field `Type` is spelled `Typ` here because `Type` is a Lean keyword). -/
structure Field where
  Name : String
  Value : String
  Typ : ℕ
deriving DecidableEq

/-- Transliteration of `Field.Size`: returns visual size of the field (see
`Field.Size`). -/
def Field.Size (f : Field) : ℕ :=
  if f.Typ = TYPE_STRING then f.Name.length + f.Value.length + 3
  else f.Name.length + f.Value.length + 1

/-- Loop state of `renderFields`: the lines already flushed (each a list of
the fields it carries), the fields accumulated in `buf` for the current
line, and the running `lineLen` counter. -/
structure PackState where
  done : List (List Field)
  cur : List Field
  lineLen : ℕ
deriving DecidableEq

/-- One iteration of the `renderFields` loop for field `f`: if the current
line is nonempty and `lineLen + f.Size() > 88`, flush it and start fresh
(so no separator is written before `f`); otherwise a nonempty line gets the
3-column " • " separator before `f`; `f` is then appended and `lineLen`
grows by `f.Size()`. -/
def packStep (st : PackState) (f : Field) : PackState :=
  if 0 < st.lineLen ∧ 88 < st.lineLen + f.Size then
    ⟨st.done ++ [st.cur], [f], f.Size⟩
  else if 0 < st.lineLen then
    ⟨st.done, st.cur ++ [f], st.lineLen + 3 + f.Size⟩
  else
    ⟨st.done, st.cur ++ [f], st.lineLen + f.Size⟩

/-- Line structure produced by `renderFields`: the loop above over all
fields, plus the final flush of a nonempty buffer (`buf.Len() != 0` in the
source, equivalent to the current line holding at least one field since
every field writes nonempty text).  The emitted text of a line is its
fields joined by " • " behind the marker-and-indent prefix; only the field
grouping per line is modelled. -/
def renderFields (fields : List Field) : List (List Field) :=
  if (fields.foldl packStep ⟨[], [], 0⟩).cur = [] then
    (fields.foldl packStep ⟨[], [], 0⟩).done
  else
    (fields.foldl packStep ⟨[], [], 0⟩).done ++ [(fields.foldl packStep ⟨[], [], 0⟩).cur]

/-- Visual width of one emitted field line: the sizes of its fields plus 3
columns for each " • " separator between adjacent fields. -/
def lineWidth (l : List Field) : ℕ :=
  (l.map Field.Size).sum + 3 * (l.length - 1)

/-- Example field of visual size 43 (21 + 21 + 1), used to exercise the
packing boundary. -/
def fieldA : Field := ⟨⟨List.replicate 21 'a'⟩, ⟨List.replicate 21 'b'⟩, TYPE_UNKNOWN⟩

/-- Example field of visual size 45 (22 + 22 + 1), used to exercise the
packing boundary. -/
def fieldB : Field := ⟨⟨List.replicate 22 'c'⟩, ⟨List.replicate 22 'd'⟩, TYPE_UNKNOWN⟩

/-- Well-typedness of a filter value for its condition, as guaranteed by the
parser: numeric comparisons carry a `float64`, all other conditions carry a
`string`. -/
def FilterShape (ff : Filter) : Prop :=
  ((ff.Cond = COND_GREATER ∨ ff.Cond = COND_LESS) ∧ ∃ q, ff.Value = GoValue.num q) ∨
  (¬(ff.Cond = COND_GREATER ∨ ff.Cond = COND_LESS) ∧ ∃ s, ff.Value = GoValue.str s)

/-- Invariant of the `renderFields` loop state: flushed lines with at least
two fields fit in 91 columns, the current line does as well, `lineLen` is
exactly the visual width of the current line, and (since every field has
positive size) the current line cannot hold more fields than `lineLen`. -/
def PackInv (st : PackState) : Prop :=
  (∀ l ∈ st.done, 2 ≤ l.length → lineWidth l ≤ 91) ∧
  (2 ≤ st.cur.length → lineWidth st.cur ≤ 91) ∧
  st.lineLen = lineWidth st.cur ∧
  st.cur.length ≤ st.lineLen

/-! ## Helper lemmas -/

theorem cutColonL_not_found (l : List Char) (h : ':' ∉ l) :
    cutColonL l = (l, [], false) := by
  induction l with
  | nil => rfl
  | cons c rest ih =>
    have hc : ¬ c = ':' := fun e => h (by simp [e])
    have hr : ':' ∉ rest := fun m => h (List.mem_cons_of_mem _ m)
    simp [cutColonL, hc, ih hr]

theorem cutColonL_append (kl : List Char) (rest : List Char) (h : ':' ∉ kl) :
    cutColonL (kl ++ ':' :: rest) = (kl, rest, true) := by
  induction kl with
  | nil => simp [cutColonL]
  | cons a l ih =>
    have ha : ¬ a = ':' := fun e => h (by simp [e])
    have hl : ':' ∉ l := fun m => h (List.mem_cons_of_mem _ m)
    simp [cutColonL, ha, ih hl]

theorem Size_pos (f : Field) : 1 ≤ f.Size := by
  unfold Field.Size
  split <;> omega

theorem lineWidth_nil : lineWidth [] = 0 := rfl

theorem lineWidth_singleton (f : Field) : lineWidth [f] = f.Size := by
  simp [lineWidth]

theorem lineWidth_append (l : List Field) (f : Field) (h : l ≠ []) :
    lineWidth (l ++ [f]) = lineWidth l + 3 + f.Size := by
  have hl : 1 ≤ l.length := List.length_pos.mpr h
  simp only [lineWidth, List.map_append, List.sum_append, List.length_append]
  simp only [List.map_cons, List.map_nil, List.sum_cons, List.sum_nil, List.length_cons,
    List.length_nil]
  omega

theorem packStep_inv (st : PackState) (f : Field) (h : PackInv st) :
    PackInv (packStep st f) := by
  obtain ⟨d, c, n⟩ := st
  obtain ⟨hdone, hcur, hlen, hcnt⟩ := h
  simp only [PackInv] at *
  simp only [packStep]
  by_cases h1 : 0 < n ∧ 88 < n + f.Size
  · rw [if_pos h1]
    refine ⟨?_, ?_, ?_, ?_⟩
    · intro l hl
      rcases List.mem_append.mp hl with hl | hl
      · exact hdone l hl
      · have : l = c := by simpa using hl
        subst this
        exact hcur
    · intro h2
      simp at h2
    · simp [lineWidth_singleton]
    · simpa [lineWidth_singleton] using Size_pos f
  · rw [if_neg h1]
    by_cases h2 : 0 < n
    · rw [if_pos h2]
      have hne : c ≠ [] := by
        intro e
        rw [e] at hlen
        simp [lineWidth_nil] at hlen
        omega
      have hwle : n + f.Size ≤ 88 := by omega
      refine ⟨hdone, ?_, ?_, ?_⟩
      · intro _
        rw [lineWidth_append c f hne, ← hlen]
        omega
      · simp only
        rw [lineWidth_append c f hne, ← hlen]
      · have hs := Size_pos f
        simp only [List.length_append, List.length_cons, List.length_nil]
        omega
    · rw [if_neg h2]
      have hlz : n = 0 := by omega
      have hce : c = [] := by
        have : c.length = 0 := by omega
        exact List.length_eq_zero.mp this
      subst hce
      subst hlz
      refine ⟨hdone, ?_, ?_, ?_⟩
      · intro h3
        simp at h3
      · simp [lineWidth_singleton]
      · simpa [lineWidth_singleton] using Size_pos f

theorem foldl_packStep_inv (fields : List Field) (st : PackState) (h : PackInv st) :
    PackInv (fields.foldl packStep st) := by
  induction fields generalizing st with
  | nil => exact h
  | cons f rest ih => exact ih _ (packStep_inv st f h)

theorem packStep_flatten (st : PackState) (f : Field) :
    (packStep st f).done.flatten ++ (packStep st f).cur =
      st.done.flatten ++ st.cur ++ [f] := by
  obtain ⟨d, c, n⟩ := st
  simp only [packStep]
  split
  · simp
  · split <;> simp

theorem foldl_packStep_flatten (fields : List Field) (st : PackState) :
    (fields.foldl packStep st).done.flatten ++ (fields.foldl packStep st).cur =
      st.done.flatten ++ st.cur ++ fields := by
  induction fields generalizing st with
  | nil => simp
  | cons f rest ih =>
    rw [List.foldl_cons, ih (packStep st f), packStep_flatten]
    simp

theorem extractMsg_empty (pairs : List (String × JVal))
    (h : ∀ kv ∈ pairs, (kv.1 = "msg" ∨ kv.1 = "log") → kv.2.toStr = "") :
    extractMsg pairs = "" := by
  unfold extractMsg
  induction pairs with
  | nil => rfl
  | cons kv rest ih =>
    rw [List.foldl_cons]
    by_cases hk : kv.1 = "msg" ∨ kv.1 = "log"
    · rw [if_pos hk, h kv (by simp) hk]
      exact ih fun x hx => h x (List.mem_cons_of_mem _ hx)
    · rw [if_neg hk]
      exact ih fun x hx => h x (List.mem_cons_of_mem _ hx)

theorem parseFilter_shape (t : String) : FilterShape (parseFilter t) := by
  unfold parseFilter
  dsimp only
  split
  · exact Or.inr ⟨by simp [COND_CONTAINS, COND_GREATER, COND_LESS], t, rfl⟩
  · split
    · next hgl => exact Or.inl ⟨hgl, _, rfl⟩
    · next hgl => exact Or.inr ⟨hgl, _, rfl⟩

theorem checkFilter_ne_none (ff : Filter) (hsh : FilterShape ff) (jf : JVal) :
    checkFilter ff jf ≠ none := by
  unfold checkFilter
  rcases hsh with ⟨hc, q, hv⟩ | ⟨hc, s, hv⟩
  · rcases hc with hc | hc <;>
      simp [hc, hv, COND_POSITIVE, COND_NEGATIVE, COND_CONTAINS, COND_GREATER, COND_LESS,
        GoValue.asFloat]
  · push_neg at hc
    obtain ⟨hc4, hc3⟩ := hc
    by_cases h0 : ff.Cond = COND_POSITIVE
    · simp [h0, hv, GoValue.asString]
    · by_cases hne : ff.Cond = COND_NEGATIVE
      · simp [hne, hv, COND_POSITIVE, COND_NEGATIVE, GoValue.asString]
      · by_cases hco : ff.Cond = COND_CONTAINS
        · simp [hco, hv, COND_POSITIVE, COND_NEGATIVE, COND_CONTAINS, GoValue.asString]
        · simp [h0, hne, hco, hc3, hc4]

theorem matchLoop_ne_none (fs : List Filter) (fields : List (String × JVal))
    (hsh : ∀ ff ∈ fs, FilterShape ff) : matchLoop fs fields ≠ none := by
  induction fs with
  | nil => simp [matchLoop]
  | cons ff rest ih =>
    rw [matchLoop]
    cases hl : lookupField fields ff.Key with
    | none => simp
    | some jf =>
      simp only
      cases hc : checkFilter ff jf with
      | none => exact absurd hc (checkFilter_ne_none ff (hsh ff (by simp)) jf)
      | some b =>
        cases b
        · simp
        · simpa using ih fun x hx => hsh x (List.mem_cons_of_mem _ hx)

theorem matchLoop_absent (fs : List Filter) (fields : List (String × JVal))
    (hsh : ∀ ff ∈ fs, FilterShape ff)
    (h : ∃ ff ∈ fs, lookupField fields ff.Key = none) :
    matchLoop fs fields = some false := by
  induction fs with
  | nil => simp at h
  | cons ff rest ih =>
    rw [matchLoop]
    cases hl : lookupField fields ff.Key with
    | none => rfl
    | some jf =>
      simp only
      cases hc : checkFilter ff jf with
      | none => exact absurd hc (checkFilter_ne_none ff (hsh ff (by simp)) jf)
      | some b =>
        cases b
        · rfl
        · simp only
          refine ih (fun x hx => hsh x (List.mem_cons_of_mem _ hx)) ?_
          obtain ⟨gg, hmem, habs⟩ := h
          rcases List.mem_cons.mp hmem with he | hmem2
          · rw [he] at habs
            rw [habs] at hl
            exact absurd hl (by simp)
          · exact ⟨gg, hmem2, habs⟩

theorem applyLoop_no_match (h : List String) (msg : String)
    (hall : ∀ t ∈ h, goContains msg t = false) :
    h.foldl
      (fun acc hh =>
        if goContains acc.1 hh then (goReplaceAll acc.1 hh (hlTag hh), true) else acc)
      (msg, false) = (msg, false) := by
  induction h with
  | nil => rfl
  | cons t ts ih =>
    rw [List.foldl_cons]
    have h1 : goContains msg t = false := hall t (by simp)
    simp only [h1, Bool.false_eq_true, if_false]
    exact ih fun x hx => hall x (List.mem_cons_of_mem _ hx)

theorem parseFilter_marker_cases (kl : List Char) (c : Char) (cs : List Char)
    (hk : kl ≠ []) (hnc : ':' ∉ kl) :
    (c = '!' → parseFilter ⟨kl ++ ':' :: c :: cs⟩ = ⟨⟨kl⟩, GoValue.str ⟨cs⟩, COND_NEGATIVE⟩) ∧
    (c = '~' → parseFilter ⟨kl ++ ':' :: c :: cs⟩ = ⟨⟨kl⟩, GoValue.str ⟨cs⟩, COND_CONTAINS⟩) ∧
    (c = '<' → parseFilter ⟨kl ++ ':' :: c :: cs⟩ =
      ⟨⟨kl⟩, GoValue.num ((goParseFloat ⟨cs⟩).getD 0), COND_LESS⟩) ∧
    (c = '>' → parseFilter ⟨kl ++ ':' :: c :: cs⟩ =
      ⟨⟨kl⟩, GoValue.num ((goParseFloat ⟨cs⟩).getD 0), COND_GREATER⟩) ∧
    (c ≠ '!' → c ≠ '~' → c ≠ '<' → c ≠ '>' →
      parseFilter ⟨kl ++ ':' :: c :: cs⟩ = ⟨⟨kl⟩, GoValue.str ⟨c :: cs⟩, COND_POSITIVE⟩) := by
  have hcut : cutColon ⟨kl ++ ':' :: c :: cs⟩ = (⟨kl⟩, ⟨c :: cs⟩, true) := by
    unfold cutColon
    dsimp only
    rw [show (⟨kl ++ ':' :: c :: cs⟩ : String).toList = kl ++ ':' :: c :: cs from rfl,
      cutColonL_append kl (c :: cs) hnc]
  have hkey : ¬ ((⟨kl⟩ : String) = "") := by
    simpa [String.ext_iff] using hk
  have hval : ¬ ((⟨c :: cs⟩ : String) = "") := by
    simp [String.ext_iff]
  have hmain : parseFilter ⟨kl ++ ':' :: c :: cs⟩ =
      (if conditions c = COND_GREATER ∨ conditions c = COND_LESS then
        (⟨⟨kl⟩,
          GoValue.num ((goParseFloat
            (if conditions c ≠ COND_POSITIVE then (⟨cs⟩ : String) else ⟨c :: cs⟩)).getD 0),
          conditions c⟩ : Filter)
      else
        ⟨⟨kl⟩,
          GoValue.str (if conditions c ≠ COND_POSITIVE then (⟨cs⟩ : String) else ⟨c :: cs⟩),
          conditions c⟩) := by
    unfold parseFilter
    dsimp only
    rw [hcut]
    dsimp only
    rw [if_neg (by simp [hkey, hval])]
    rfl
  refine ⟨?_, ?_, ?_, ?_, ?_⟩
  · intro hcc
    subst hcc
    rw [hmain]
    simp [conditions, COND_POSITIVE, COND_NEGATIVE, COND_GREATER, COND_LESS]
  · intro hcc
    subst hcc
    rw [hmain]
    simp [conditions, COND_POSITIVE, COND_CONTAINS, COND_GREATER, COND_LESS]
  · intro hcc
    subst hcc
    rw [hmain]
    simp [conditions, COND_POSITIVE, COND_GREATER, COND_LESS]
  · intro hcc
    subst hcc
    rw [hmain]
    simp [conditions, COND_POSITIVE, COND_GREATER, COND_LESS]
  · intro h1 h2 h3 h4
    rw [hmain]
    simp [conditions, h1, h2, h3, h4, COND_POSITIVE, COND_GREATER, COND_LESS]

/-! ## Claims -/

/-- C3: rendering a valid JSON object from which no message was extracted
returns didRender = false; rendering a non-JSON-object line returns
didRender = false in strict mode and renders the raw line as passthrough
with didRender = true in non-strict mode. -/
theorem C3_renderLine_didRender :
    (∀ (raw : String) (filters : Filters) (hl : Highlights),
      renderLine true filters hl (ParsedLine.notObject raw) = some false) ∧
    (∀ (raw : String) (filters : Filters) (hl : Highlights),
      renderLine false filters hl (ParsedLine.notObject raw) = some true) ∧
    (∀ (strict : Bool) (filters : Filters) (hl : Highlights)
      (pairs : List (String × JVal)), extractMsg pairs = "" →
      renderLine strict filters hl (ParsedLine.object pairs) = some false) := by
  refine ⟨fun _ _ _ => rfl, fun _ _ _ => rfl, fun strict filters hl pairs h => ?_⟩
  simp [renderLine, h]

/-- Witness for C3 at concrete inputs: the non-JSON line "plain text" in
both modes, and a JSON object carrying only level and a data field. -/
theorem C3_renderLine_didRender_witness :
    renderLine true [] [] (ParsedLine.notObject "plain text") = some false ∧
    renderLine false [] [] (ParsedLine.notObject "plain text") = some true ∧
    renderLine false [] []
      (ParsedLine.object [("level", JVal.jstring "info"), ("x", JVal.jnumber "1" 1)]) =
      some false :=
  ⟨C3_renderLine_didRender.1 "plain text" [] [],
   C3_renderLine_didRender.2.1 "plain text" [] [],
   C3_renderLine_didRender.2.2 false [] []
     [("level", JVal.jstring "info"), ("x", JVal.jnumber "1" 1)] (by decide)⟩

/-- C4: a token with no colon, or with an empty portion before or after the
first colon, parses to the bare substring filter on the msg field with the
whole token as value. -/
theorem C4_bare_token (t : String)
    (h : ':' ∉ t.toList ∨
      ∃ a b : List Char, t.toList = a ++ ':' :: b ∧ ':' ∉ a ∧ (a = [] ∨ b = [])) :
    parseFilter t = ⟨"msg", GoValue.str t, COND_CONTAINS⟩ := by
  unfold parseFilter
  dsimp only
  rcases h with h | ⟨a, b, ht, hna, hab⟩
  · have hc : cutColon t = (t, "", false) := by
      unfold cutColon
      dsimp only
      rw [cutColonL_not_found t.toList h]
      rfl
    rw [hc]
    simp
  · have hc : cutColon t = (⟨a⟩, ⟨b⟩, true) := by
      unfold cutColon
      dsimp only
      rw [ht, cutColonL_append a b hna]
    rw [hc]
    rcases hab with he | he <;> subst he <;> simp [String.ext_iff]

/-- Witness for C4: the colon-free token "update" gives a msg-contains
filter carrying the token itself. -/
theorem C4_bare_token_witness :
    parseFilter "update" = ⟨"msg", GoValue.str "update", COND_CONTAINS⟩ :=
  C4_bare_token "update" (Or.inl (by decide))

/-- C5: for a token key:rest with nonempty key (holding no colon) and
nonempty rest, the condition is selected by the first character of rest
(`!` negative, `~` contains, `<` less, `>` greater, each stripped from the
value; numeric conditions parse the stripped value), and any other first
character yields a positive filter whose value is the entire rest. -/
theorem C5_condition_markers (kl : List Char) (c : Char) (cs : List Char)
    (hk : kl ≠ []) (hnc : ':' ∉ kl) :
    (c = '!' → parseFilter ⟨kl ++ ':' :: c :: cs⟩ = ⟨⟨kl⟩, GoValue.str ⟨cs⟩, COND_NEGATIVE⟩) ∧
    (c = '~' → parseFilter ⟨kl ++ ':' :: c :: cs⟩ = ⟨⟨kl⟩, GoValue.str ⟨cs⟩, COND_CONTAINS⟩) ∧
    (c = '<' → parseFilter ⟨kl ++ ':' :: c :: cs⟩ =
      ⟨⟨kl⟩, GoValue.num ((goParseFloat ⟨cs⟩).getD 0), COND_LESS⟩) ∧
    (c = '>' → parseFilter ⟨kl ++ ':' :: c :: cs⟩ =
      ⟨⟨kl⟩, GoValue.num ((goParseFloat ⟨cs⟩).getD 0), COND_GREATER⟩) ∧
    (c ≠ '!' → c ≠ '~' → c ≠ '<' → c ≠ '>' →
      parseFilter ⟨kl ++ ':' :: c :: cs⟩ = ⟨⟨kl⟩, GoValue.str ⟨c :: cs⟩, COND_POSITIVE⟩) :=
  parseFilter_marker_cases kl c cs hk hnc

/-- Witness for C5: the spec example token caller:~app/db.go parses to a
contains filter on the caller key. -/
theorem C5_condition_markers_witness :
    parseFilter "caller:~app/db.go" = ⟨"caller", GoValue.str "app/db.go", COND_CONTAINS⟩ := by
  have h :=
    (C5_condition_markers "caller".toList '~' "app/db.go".toList (by decide) (by decide)).2.1 rfl
  exact h

/-- C6: a LESS or GREATER token stores the parsed numeric value of its
value string, and a value string that does not parse silently stores the
zero value without rejecting the filter. -/
theorem C6_numeric_leniency (kl vl : List Char) (hk : kl ≠ []) (hnc : ':' ∉ kl) :
    (goParseFloat ⟨vl⟩ = none →
      parseFilter ⟨kl ++ ':' :: '>' :: vl⟩ = ⟨⟨kl⟩, GoValue.num 0, COND_GREATER⟩ ∧
      parseFilter ⟨kl ++ ':' :: '<' :: vl⟩ = ⟨⟨kl⟩, GoValue.num 0, COND_LESS⟩) ∧
    (∀ q : ℚ, goParseFloat ⟨vl⟩ = some q →
      parseFilter ⟨kl ++ ':' :: '>' :: vl⟩ = ⟨⟨kl⟩, GoValue.num q, COND_GREATER⟩ ∧
      parseFilter ⟨kl ++ ':' :: '<' :: vl⟩ = ⟨⟨kl⟩, GoValue.num q, COND_LESS⟩) := by
  have hgt := (parseFilter_marker_cases kl '>' vl hk hnc).2.2.2.1 rfl
  have hlt := (parseFilter_marker_cases kl '<' vl hk hnc).2.2.1 rfl
  constructor
  · intro hn
    rw [hgt, hlt, hn]
    exact ⟨rfl, rfl⟩
  · intro q hq
    rw [hgt, hlt, hq]
    exact ⟨rfl, rfl⟩

/-- Witness for C6: the spec example bad:>notanumber stores the numeric
zero value under the GREATER condition. -/
theorem C6_numeric_leniency_witness :
    parseFilter "bad:>notanumber" = ⟨"bad", GoValue.num 0, COND_GREATER⟩ := by
  have h :=
    ((C6_numeric_leniency "bad".toList "notanumber".toList (by decide) (by decide)).1
      (by decide)).1
  exact h

/-- C7: IsMatch on the empty filter list accepts every field map, and a
filter list produced by the parser whose filters include one with a key
absent from the field map rejects the record. -/
theorem C7_empty_and_absent :
    (∀ fields : List (String × JVal), Filters.IsMatch [] fields = some true) ∧
    (∀ (tokens : List String) (fields : List (String × JVal)),
      (∃ ff ∈ parseFilters tokens, lookupField fields ff.Key = none) →
      Filters.IsMatch (parseFilters tokens) fields = some false) := by
  refine ⟨fun _ => rfl, fun tokens fields h => ?_⟩
  have hsh : ∀ ff ∈ parseFilters tokens, FilterShape ff := by
    intro ff hff
    obtain ⟨t, -, ht⟩ := List.mem_map.mp hff
    exact ht ▸ parseFilter_shape t
  have hne : parseFilters tokens ≠ [] := by
    obtain ⟨ff, hmem, -⟩ := h
    exact List.ne_nil_of_mem hmem
  unfold Filters.IsMatch
  rw [if_neg (by simpa using hne)]
  exact matchLoop_absent _ _ hsh h

/-- Witness for C7: the empty list accepts a sample map, and the parsed
token level:warn rejects the empty field map, where its key is absent. -/
theorem C7_empty_and_absent_witness :
    Filters.IsMatch [] [("x", JVal.jstring "y")] = some true ∧
    Filters.IsMatch (parseFilters ["level:warn"]) [] = some false :=
  ⟨C7_empty_and_absent.1 [("x", JVal.jstring "y")],
   C7_empty_and_absent.2 ["level:warn"] []
     ⟨parseFilter "level:warn", by decide, by decide⟩⟩

/-- C9: every filter produced by the parser carries a numeric value exactly
under the LESS and GREATER conditions and a string value under all others,
so the runtime type assertions inside IsMatch never fail: IsMatch on
parser-produced filters never panics. -/
theorem C9_no_panic :
    (∀ tokens : List String, ∀ ff ∈ parseFilters tokens,
      ((ff.Cond = COND_LESS ∨ ff.Cond = COND_GREATER) → ∃ q, ff.Value = GoValue.num q) ∧
      (ff.Cond ≠ COND_LESS ∧ ff.Cond ≠ COND_GREATER → ∃ s, ff.Value = GoValue.str s)) ∧
    (∀ (tokens : List String) (fields : List (String × JVal)),
      Filters.IsMatch (parseFilters tokens) fields ≠ none) := by
  constructor
  · intro tokens ff hff
    obtain ⟨t, -, ht⟩ := List.mem_map.mp hff
    have hs := ht ▸ parseFilter_shape t
    rcases hs with ⟨hc, q, hv⟩ | ⟨hc, s, hv⟩
    · constructor
      · intro _
        exact ⟨q, hv⟩
      · intro hn
        rcases hc with hc | hc
        · exact absurd hc hn.2
        · exact absurd hc hn.1
    · constructor
      · intro hgl
        rcases hgl with hg | hg
        · exact absurd (Or.inr hg) hc
        · exact absurd (Or.inl hg) hc
      · intro _
        exact ⟨s, hv⟩
  · intro tokens fields
    unfold Filters.IsMatch
    split
    · simp
    · refine matchLoop_ne_none _ _ ?_
      intro ff hff
      obtain ⟨t, -, ht⟩ := List.mem_map.mp hff
      exact ht ▸ parseFilter_shape t

/-- Witness for C9: the parsed token a:>1 yields a numeric GREATER filter
and evaluating it against the empty field map does not panic. -/
theorem C9_no_panic_witness :
    (∃ q, (Filter.mk "a" (GoValue.num 1) COND_GREATER).Value = GoValue.num q) ∧
    Filters.IsMatch (parseFilters ["a:>1"]) [] ≠ none :=
  ⟨(C9_no_panic.1 ["a:>1"] ⟨"a", GoValue.num 1, COND_GREATER⟩ (by decide)).1
      (Or.inr (by decide)),
   C9_no_panic.2 ["a:>1"] []⟩

/-- C10: a JSON object whose msg or log keys are present but all bound to
the empty string renders with didRender = false, exactly as when those keys
are removed from the object. -/
theorem C10_empty_message (strict : Bool) (filters : Filters) (hl : Highlights)
    (pairs : List (String × JVal))
    (_hpresent : ∃ kv ∈ pairs, kv.1 = "msg" ∨ kv.1 = "log")
    (hempty : ∀ kv ∈ pairs, (kv.1 = "msg" ∨ kv.1 = "log") → kv.2.toStr = "") :
    renderLine strict filters hl (ParsedLine.object pairs) = some false ∧
    renderLine strict filters hl
      (ParsedLine.object (pairs.filter fun kv => !(kv.1 == "msg" || kv.1 == "log"))) =
      some false := by
  constructor
  · simp [renderLine, extractMsg_empty pairs hempty]
  · have h2 : ∀ kv ∈ pairs.filter (fun kv => !(kv.1 == "msg" || kv.1 == "log")),
        (kv.1 = "msg" ∨ kv.1 = "log") → kv.2.toStr = "" := by
      intro kv hkv hor
      have hp := List.of_mem_filter hkv
      simp at hp
      rcases hor with h | h
      · exact absurd h hp.1
      · exact absurd h hp.2
    have hext : extractMsg (pairs.filter fun kv => !(kv.1 == "msg" || kv.1 == "log")) = "" :=
      extractMsg_empty _ h2
    simp only [renderLine]
    rw [hext]
    simp

/-- Witness for C10: an object with an explicitly empty msg value and one
data field is dropped, as is the object with the msg pair removed. -/
theorem C10_empty_message_witness :
    renderLine false [] []
      (ParsedLine.object [("msg", JVal.jstring ""), ("x", JVal.jnumber "1" 1)]) =
      some false ∧
    renderLine false [] []
      (ParsedLine.object
        ([("msg", JVal.jstring ""), ("x", JVal.jnumber "1" 1)].filter
          fun kv => !(kv.1 == "msg" || kv.1 == "log"))) = some false :=
  C10_empty_message false [] [] [("msg", JVal.jstring ""), ("x", JVal.jnumber "1" 1)]
    ⟨("msg", JVal.jstring ""), by decide, by decide⟩ (by decide)

/-- C8 counterexample: with the highlight set [ab, abc] and message abc the
term abc occurs in the message, yet the output contains no wrapped
occurrence of abc (the earlier replacement of ab destroyed it), while
matched is still reported true — so Apply does not wrap every occurrence of
every term that appears in the message. -/
theorem C8_counterexample :
    goContains "abc" "abc" = true ∧
    goContains (Highlights.Apply ["ab", "abc"] "abc").1 (hlTag "abc") = false ∧
    goContains (Highlights.Apply ["ab", "abc"] "abc").1 "abc" = false ∧
    (Highlights.Apply ["ab", "abc"] "abc").2 = true := by decide

/-- C8 (amended): Apply processes highlight terms sequentially against the
current, possibly already marked, message; for a single term that occurs in
the message every occurrence is replaced by the wrapped term and matched is
true, and when no term occurs in the message Apply returns it unchanged
with matched false. -/
theorem C8_amended_highlight_apply :
    (∀ t msg : String, goContains msg t = true →
      Highlights.Apply [t] msg = (goReplaceAll msg t (hlTag t), true)) ∧
    (∀ (h : Highlights) (msg : String), (∀ t ∈ h, goContains msg t = false) →
      Highlights.Apply h msg = (msg, false)) := by
  constructor
  · intro t msg ht
    simp [Highlights.Apply, ht]
  · intro h msg hall
    unfold Highlights.Apply
    exact applyLoop_no_match h msg hall

/-- Witness for C8 (amended): the spec example term fail on a message with
two occurrences, and a term absent from the message. -/
theorem C8_amended_highlight_apply_witness :
    Highlights.Apply ["fail"] "task fail: fail again" =
      (goReplaceAll "task fail: fail again" "fail" (hlTag "fail"), true) ∧
    Highlights.Apply ["zz"] "abc" = ("abc", false) :=
  ⟨C8_amended_highlight_apply.1 "fail" "task fail: fail again" (by decide),
   C8_amended_highlight_apply.2 ["zz"] "abc" (by decide)⟩

/-- C1 counterexample: the parser-produced GREATER filter a:>5 against a
field map where the key a has numeric representation 3 satisfies 5 > 3,
yet IsMatch rejects the record — and the LESS filter a:<5 against a field
valued 7 satisfies 5 < 7, yet IsMatch also rejects — so the claimed
satisfaction direction (satisfied exactly when value compares greater,
respectively less, than the field) is inverted with respect to the code. -/
theorem C1_counterexample :
    parseFilters ["a:>5"] = [⟨"a", GoValue.num 5, COND_GREATER⟩] ∧
    ((5 : ℚ) > (JVal.jnumber "3" 3).toFloat) ∧
    Filters.IsMatch (parseFilters ["a:>5"]) [("a", JVal.jnumber "3" 3)] = some false ∧
    parseFilters ["a:<5"] = [⟨"a", GoValue.num 5, COND_LESS⟩] ∧
    ((5 : ℚ) < (JVal.jnumber "7" 7).toFloat) ∧
    Filters.IsMatch (parseFilters ["a:<5"]) [("a", JVal.jnumber "7" 7)] = some false := by
  decide

/-- C1 (amended): a GREATER filter with numeric value v is satisfied by a
field whose numeric representation is x exactly when v is not greater than
x (the code rejects the record when v > x), and a LESS filter exactly when
v is not less than x — both as the loop body check and as the verdict of
IsMatch on the single-filter list. -/
theorem C1_amended_threshold_direction (k : String) (v : ℚ) (jv : JVal)
    (fields : List (String × JVal)) (h : lookupField fields k = some jv) :
    (checkFilter ⟨k, GoValue.num v, COND_GREATER⟩ jv = some true ↔ v ≤ jv.toFloat) ∧
    (checkFilter ⟨k, GoValue.num v, COND_LESS⟩ jv = some true ↔ jv.toFloat ≤ v) ∧
    (Filters.IsMatch [⟨k, GoValue.num v, COND_GREATER⟩] fields = some true ↔ v ≤ jv.toFloat) ∧
    (Filters.IsMatch [⟨k, GoValue.num v, COND_LESS⟩] fields = some true ↔ jv.toFloat ≤ v) := by
  have hsingle : ∀ ff : Filter, ff.Key = k →
      Filters.IsMatch [ff] fields = checkFilter ff jv := by
    intro ff hk
    unfold Filters.IsMatch
    rw [if_neg (by simp)]
    rw [matchLoop, hk, h]
    simp only
    cases checkFilter ff jv with
    | none => rfl
    | some b => cases b <;> rfl
  have hg_iff : checkFilter ⟨k, GoValue.num v, COND_GREATER⟩ jv = some true ↔ v ≤ jv.toFloat := by
    simp [checkFilter, COND_POSITIVE, COND_NEGATIVE, COND_CONTAINS, COND_GREATER, COND_LESS,
      GoValue.asFloat, not_lt]
  have hl_iff : checkFilter ⟨k, GoValue.num v, COND_LESS⟩ jv = some true ↔ jv.toFloat ≤ v := by
    simp [checkFilter, COND_POSITIVE, COND_NEGATIVE, COND_CONTAINS, COND_GREATER, COND_LESS,
      GoValue.asFloat, not_lt]
  exact ⟨hg_iff, hl_iff,
    by rw [hsingle _ rfl]; exact hg_iff,
    by rw [hsingle _ rfl]; exact hl_iff⟩

/-- Witness for C1 (amended): the GREATER filter with value 5 is satisfied
against a field valued 7, and the LESS filter with value 5 against a field
valued 3, matching the amended direction. -/
theorem C1_amended_threshold_direction_witness :
    (Filters.IsMatch [⟨"a", GoValue.num 5, COND_GREATER⟩] [("a", JVal.jnumber "7" 7)] =
      some true ↔ (5 : ℚ) ≤ (JVal.jnumber "7" 7).toFloat) ∧
    (Filters.IsMatch [⟨"a", GoValue.num 5, COND_LESS⟩] [("a", JVal.jnumber "7" 7)] =
      some true ↔ (JVal.jnumber "7" 7).toFloat ≤ 5) :=
  ⟨(C1_amended_threshold_direction "a" 5 (JVal.jnumber "7" 7) [("a", JVal.jnumber "7" 7)]
      (by decide)).2.2.1,
   (C1_amended_threshold_direction "a" 5 (JVal.jnumber "7" 7) [("a", JVal.jnumber "7" 7)]
      (by decide)).2.2.2⟩

/-- C2 counterexample: two fields of sizes 43 and 45, each individually at
most 88 columns, are packed onto one emitted line of visual width 91 > 88
(the wrap check omits the 3-column separator it then writes), refuting the
claim that every multi-field line fits in 88 columns. -/
theorem C2_counterexample :
    renderFields [fieldA, fieldB] = [[fieldA, fieldB]] ∧
    2 ≤ ([fieldA, fieldB] : List Field).length ∧
    fieldA.Size ≤ 88 ∧ fieldB.Size ≤ 88 ∧
    88 < lineWidth [fieldA, fieldB] := by decide

/-- C2 (amended): every line emitted by the field-packing algorithm that
holds at least two fields has visual width at most 91 columns (the 88
budget plus one 3-column separator, since the wrap check omits the
separator), a line holding a single field may have any width, and no field
is ever split: the emitted lines concatenate back to the input fields in
order. -/
theorem C2_amended_line_width (fields : List Field) :
    (∀ l ∈ renderFields fields, 2 ≤ l.length → lineWidth l ≤ 91) ∧
    (renderFields fields).flatten = fields := by
  have hinv : PackInv (fields.foldl packStep ⟨[], [], 0⟩) :=
    foldl_packStep_inv fields ⟨[], [], 0⟩
      ⟨by simp, by simp [lineWidth_nil], by simp [lineWidth_nil], by simp⟩
  have hflat := foldl_packStep_flatten fields ⟨[], [], 0⟩
  obtain ⟨hdone, hcur, -, -⟩ := hinv
  unfold renderFields
  by_cases hc : (fields.foldl packStep ⟨[], [], 0⟩).cur = []
  · rw [if_pos hc]
    refine ⟨fun l hl => hdone l hl, ?_⟩
    rw [hc] at hflat
    simpa using hflat
  · rw [if_neg hc]
    constructor
    · intro l hl
      rcases List.mem_append.mp hl with hm | hm
      · exact hdone l hm
      · have he : l = (fields.foldl packStep ⟨[], [], 0⟩).cur := by simpa using hm
        rw [he]
        exact hcur
    · rw [List.flatten_append]
      simpa using hflat

/-- Witness for C2 (amended): the two example fields pack onto one line of
width 91 ≤ 91 and concatenate back to the input. -/
theorem C2_amended_line_width_witness :
    lineWidth [fieldA, fieldB] ≤ 91 ∧
    (renderFields [fieldA, fieldB]).flatten = [fieldA, fieldB] :=
  ⟨(C2_amended_line_width [fieldA, fieldB]).1 [fieldA, fieldB] (by decide) (by decide),
   (C2_amended_line_width [fieldA, fieldB]).2⟩

end LJ
